import Mathlib

/-!
Verification development for the webnovel extraction / packaging / TTS
service.  The Python source is shallowly embedded: text is a list of
characters, the SQLite job / novel / chapter rows are records, and each
background task is a pure function from the outcomes of its external calls
(fetches, synthesis, search-index update) to the trace of store updates it
performs.
-/

/-! ## Characters and low-level text helpers (tts.py, extractor.py)

Python `str.strip` and the regex class `\s` additionally treat `\f`, `\v`
and some Unicode characters as whitespace; `Char.isWhitespace` covers the
ASCII whitespace that actually occurs in the claims, and both the model and
the modelled code use one consistent notion, so no claim depends on the
difference. -/

def isSpc (c : Char) : Bool := c.isWhitespace

/-- Python `text.split(sep)` for a one-character separator (`"\n"` in
`tts.py:84` and `extractor.py:225`): splitting the empty string gives
`[""]`, and separators at the ends give empty pieces. -/
def splitOnChar (sep : Char) : List Char → List (List Char)
  | [] => [[]]
  | c :: rest =>
    if c = sep then [] :: splitOnChar sep rest
    else
      match splitOnChar sep rest with
      | [] => [[c]]
      | p :: ps => (c :: p) :: ps

/-- Python `s.strip()`: drop whitespace from both ends. -/
def pyStrip (l : List Char) : List Char :=
  ((l.dropWhile isSpc).reverse.dropWhile isSpc).reverse

/-- Python `" ".join(buf)` on character lists. -/
def joinSpace : List (List Char) → List Char
  | [] => []
  | [x] => x
  | x :: y :: rest => x ++ ' ' :: joinSpace (y :: rest)

/-! ## Sentence splitting and chunking (tts.py, `chunk_text`) -/

/-- The sentence terminators of the regex `(?<=[.!?])\s+` in `tts.py:89`. -/
def isTerm (c : Char) : Bool := c = '.' || c = '!' || c = '?'

/-- The regex match condition at the current character `c`: the lookbehind
`(?<=[.!?])` holds of the previously consumed character (the head of the
reversed accumulator `cur`) and `c` starts the whitespace run `\s+`. -/
def sentMatch (cur : List Char) (c : Char) : Bool :=
  (match cur with
   | p :: _ => isTerm p
   | [] => false) && isSpc c

/-- One left-to-right pass of `re.split(r"(?<=[.!?])\s+", paragraph)`
(`tts.py:89`).  `cur` is the reversed span accumulated so far; `skipping`
is true while the matched whitespace run is being consumed.  A match emits
the span and greedily drops the rest of the run; everything else is kept
inside the span.  When the input ends during a run the final span is empty,
exactly as `re.split` returns a trailing `""`. -/
def sentAux : List Char → List Char → Bool → List (List Char)
  | [], cur, _ => [cur.reverse]
  | c :: rest, cur, skipping =>
    if skipping then
      if isSpc c then sentAux rest [] true
      else sentAux rest [c] false
    else if sentMatch cur c then
      cur.reverse :: sentAux rest [] true
    else sentAux rest (c :: cur) false

/-- `re.split(r"(?<=[.!?])\s+", paragraph)`. -/
def pySentSplit (p : List Char) : List (List Char) := sentAux p [] false

/-- The sentence list built by the first loop of `chunk_text`
(`tts.py:84-90`): split on newlines, strip each paragraph, skip the empty
ones, and concatenate the sentence spans of each remaining paragraph. -/
def sentences (text : List Char) : List (List Char) :=
  ((((splitOnChar '\n' text).map pyStrip).filter
      (fun p => !p.isEmpty)).map pySentSplit).flatten

/-- The greedy accumulation loop of `chunk_text` (`tts.py:91-103`).  `buf`
is the running buffer, `curLen` the Python `current_len` counter; a flush
emits `" ".join(buf).strip()` before the span that would overflow, and the
final non-empty buffer is emitted at the end. -/
def chunkGo (maxChars : Nat) (buf : List (List Char)) (curLen : Nat) :
    List (List Char) → List (List Char)
  | [] => if buf.isEmpty then [] else [pyStrip (joinSpace buf)]
  | s :: rest =>
    if curLen + s.length + 1 > maxChars && !buf.isEmpty then
      pyStrip (joinSpace buf) :: chunkGo maxChars [s] s.length rest
    else
      chunkGo maxChars (buf ++ [s]) (curLen + s.length + 1) rest

/-- `chunk_text(text, max_chars)` (`tts.py:73-104`); the Python default for
`max_chars` is 3200 and is passed explicitly by the callers modelled
below. -/
def chunk_text (text : List Char) (maxChars : Nat) : List (List Char) :=
  chunkGo maxChars [] 0 (sentences text)

/-! ## Spans and goodness

`noHeadSpc l` says the first character of `l`, when there is one, is not
whitespace; `goodSpan` says a span is non-empty and has non-whitespace
characters at both ends, which is what the sentence splitter guarantees for
spans cut out of a stripped paragraph. -/

def noHeadSpc (l : List Char) : Prop := ∀ c, l.head? = some c → isSpc c = false

def goodSpan (l : List Char) : Prop := l ≠ [] ∧ noHeadSpc l ∧ noHeadSpc l.reverse

/-! ## Job rows and `update_job` (db.py)

A `JobUpdate` mirrors one call of `db.update_job(job_id, status=..,
progress=.., error=..)` (`db.py:227-256`): each field is `none` when the
keyword argument was not provided, and `update_job` only writes the
provided fields.  `jobInit` is the row written by `db.insert_job` in the
endpoints (`main.py:280-288`): status queued, progress 0, no error. -/

inductive JobStatus where
  | queued
  | running
  | done
  | error
deriving DecidableEq

structure JobUpdate where
  status : Option JobStatus
  progress : Option Nat
  error : Option String
deriving DecidableEq

structure JobRec where
  status : JobStatus
  progress : Nat
  error : Option String
deriving DecidableEq

def applyUpdate (j : JobRec) (u : JobUpdate) : JobRec :=
  { status := u.status.getD j.status,
    progress := u.progress.getD j.progress,
    error := u.error.or j.error }

def jobInit : JobRec := ⟨JobStatus.queued, 0, none⟩

/-- The job row after the orchestrator has applied a trace of
`update_job` calls, in order, to the freshly inserted row. -/
def finalJob (tr : List JobUpdate) : JobRec := tr.foldl applyUpdate jobInit

/-! ## Chapter rows (db.py, main.py)

`ChapterRec.text` models the pair (text_path, contents of that file)
written by `background_extract_novel`; `none` stands for a missing path or
file.  The id / novel_id / source_url columns are fresh opaque values not
touched by any claim and are omitted. -/

structure ChapterContent where
  title : String
  text : String
deriving DecidableEq

structure ChapterRec where
  idx : Nat
  title : String
  text : Option String
  audioPath : Option String
  durationSeconds : Option Nat
  ttsProvider : Option String
  status : String
deriving DecidableEq

/-- The chapter row inserted at `main.py:106-118` for the chapter with
1-based index `i`: text extracted, status ready, no audio fields. -/
def mkChapterRec (i : Nat) (c : ChapterContent) : ChapterRec :=
  ⟨i, c.title, some c.text, none, none, none, "ready"⟩

/-! ## `background_extract_novel` (main.py:81-148)

The run is a function of the per-URL outcomes of `extractor.extract_chapter`
(`some content` or `none`) and of whether the final `search.update_index`
call raises (`indexExc = some message`).  Progress is modelled as
`i * 50 / total` in natural division; Python computes
`int((i / total) * 50)` through floats, which agrees on the endpoints and
is monotone in `i`, and no claim depends on intermediate values.
`novelStatus` tracks the owning novel row: the endpoint creates it as
`extracting`; `insert_novel` at `main.py:125-135` upserts it to `ready`,
and `update_novel_status(novel_id, "error")` is called on any failure.
`package_epub` raising on an empty chapter list is the only other
exception the body can produce in this model. -/

structure ExtractRun where
  trace : List JobUpdate
  chapters : List ChapterRec
  novelStatus : String
deriving DecidableEq

def extractGo (total : Nat) (indexExc : Option String) (i : Nat)
    (acc : List ChapterRec) : List (Option ChapterContent) → ExtractRun
  | [] =>
    if acc.isEmpty then
      { trace := [⟨some JobStatus.error, none,
          some "Cannot package an empty novel into an EPUB."⟩],
        chapters := acc, novelStatus := "error" }
    else
      match indexExc with
      | none =>
        { trace := [⟨some JobStatus.done, some 100, none⟩],
          chapters := acc, novelStatus := "ready" }
      | some m =>
        { trace := [⟨some JobStatus.done, some 100, none⟩,
            ⟨some JobStatus.error, none, some m⟩],
          chapters := acc, novelStatus := "error" }
  | none :: _ =>
    { trace := [⟨some JobStatus.error, none,
        some ("Failed to extract chapter " ++ toString i)⟩],
      chapters := acc, novelStatus := "error" }
  | some c :: rest =>
    let r := extractGo total indexExc (i + 1) (acc ++ [mkChapterRec i c]) rest
    { r with trace := ⟨none, some (i * 50 / total), none⟩ :: r.trace }

def runExtract (results : List (Option ChapterContent)) (indexExc : Option String) :
    ExtractRun :=
  let r := extractGo results.length indexExc 1 [] results
  { r with trace := ⟨some JobStatus.running, some 0, none⟩ :: r.trace }

/-- The chapter rows persisted for a run of successful contents starting at
index `i` — what `background_extract_novel` inserts, in order. -/
def mkRecords (i : Nat) : List ChapterContent → List ChapterRec
  | [] => []
  | c :: cs => mkChapterRec i c :: mkRecords (i + 1) cs

/-- The progress updates issued for a run of successful chapters starting
at index `i`. -/
def extractProgressTrace (total i : Nat) : List ChapterContent → List JobUpdate
  | [] => []
  | _ :: cs => ⟨none, some (i * 50 / total), none⟩ :: extractProgressTrace total (i + 1) cs

/-! ## `background_tts_novel` (main.py:196-237)

The provider is looked up before the job starts; the endpoint at
`main.py:330-332` rejects unknown provider names before a job exists, so
the model takes the provider name and its duration estimate as given.
`synthCalls` counts calls of `provider.synthesize`; the audio bytes are not
tracked (no claim mentions them), the duration sum is. -/

structure TtsRun where
  trace : List JobUpdate
  chapters : List ChapterRec
  synthCalls : Nat
deriving DecidableEq

def ttsFinish : Option String → List JobUpdate
  | none => [⟨some JobStatus.done, some 100, none⟩]
  | some m => [⟨some JobStatus.done, some 100, none⟩,
               ⟨some JobStatus.error, none, some m⟩]

def ttsNovelGo (total : Nat) (pname : String) (synthDur : List Char → Nat)
    (indexExc : Option String) (loopIdx : Nat) : List ChapterRec → TtsRun
  | [] => { trace := ttsFinish indexExc, chapters := [], synthCalls := 0 }
  | ch :: rest =>
    if ch.audioPath.isSome then
      let r := ttsNovelGo total pname synthDur indexExc (loopIdx + 1) rest
      { trace := r.trace, chapters := ch :: r.chapters, synthCalls := r.synthCalls }
    else
      match ch.text with
      | none =>
        { trace := [⟨some JobStatus.error, none,
            some ("Missing text for chapter " ++ toString ch.idx)⟩],
          chapters := ch :: rest, synthCalls := 0 }
      | some txt =>
        let chunks := chunk_text txt.toList 3200
        let dur := (chunks.map synthDur).foldl (· + ·) 0
        let ch2 := { ch with
          audioPath := some ("chapter-" ++ toString ch.idx ++ ".mp3"),
          durationSeconds := some dur,
          ttsProvider := some pname,
          status := "ready" }
        let r := ttsNovelGo total pname synthDur indexExc (loopIdx + 1) rest
        { trace := ⟨none, some (loopIdx * 90 / total), none⟩ :: r.trace,
          chapters := ch2 :: r.chapters,
          synthCalls := chunks.length + r.synthCalls }

def runTtsNovel (chapters : List ChapterRec) (pname : String)
    (synthDur : List Char → Nat) (indexExc : Option String) : TtsRun :=
  if chapters.isEmpty then
    { trace := [⟨some JobStatus.running, some 0, none⟩,
        ⟨some JobStatus.error, none, some "Novel has no chapters"⟩],
      chapters := chapters, synthCalls := 0 }
  else
    let r := ttsNovelGo chapters.length pname synthDur indexExc 1 chapters
    { r with trace := ⟨some JobStatus.running, some 0, none⟩ :: r.trace }

/-- A chapter that already has all three audio fields set. -/
def demoChapterDone : ChapterRec :=
  ⟨1, "c1", some "text", some "chapter-1.mp3", some 3, some "silent", "ready"⟩

/-! ## EPUB packaging (extractor.py:198-328)

`q1` is the single-quote character that the Python templates use around XML
attribute values.  `html.escape(s)` replaces the ampersand first and then
the other four characters; doing it characterwise gives the same string
because no replacement text contains a character that is escaped later. -/

def q1 : String := (Char.ofNat 39).toString

def escChar (c : Char) : List Char :=
  if c = '&' then "&amp;".toList
  else if c = '<' then "&lt;".toList
  else if c = '>' then "&gt;".toList
  else if c = '"' then "&quot;".toList
  else if c = Char.ofNat 39 then "&#x27;".toList
  else [c]

def htmlEscapeL (l : List Char) : List Char := (l.map escChar).flatten

def htmlEscape (s : String) : String := (htmlEscapeL s.toList).asString

/-- The metadata dict passed to `package_epub`.  Each caller
(`main.py:138-141`, `main.py:455-457`) passes all four keys, so the
`.get` defaults of `_epub_template` (a fresh uuid for a missing id,
"Untitled" for a missing title) are never exercised and are not
modelled. -/
structure EpubMeta where
  id : String
  title : String
  author : String
  description : String
deriving DecidableEq

/-- One chapter dict: the `id` key read into the unused local `chap_id` at
`extractor.py:221` does not influence the archive and is omitted. -/
structure EpubChapter where
  title : String
  text : String
deriving DecidableEq

def chapterFileName (i : Nat) : String := "Text/chapter" ++ toString i ++ ".xhtml"

/-- The manifest `<item>` element built at `extractor.py:241`. -/
def manifestItem (i : Nat) : String :=
  "<item id=" ++ q1 ++ "chap" ++ toString i ++ q1 ++ " href=" ++ q1 ++ chapterFileName i
    ++ q1 ++ " media-type=" ++ q1 ++ "application/xhtml+xml" ++ q1 ++ "/>"

/-- The spine `<itemref>` element built at `extractor.py:242`. -/
def spineItem (i : Nat) : String :=
  "<itemref idref=" ++ q1 ++ "chap" ++ toString i ++ q1 ++ " />"

/-- The `<navPoint>` element built at `extractor.py:243-250`: both its id
and its `playOrder` attribute carry the 1-based position `i`. -/
def navPointItem (i : Nat) (ch : EpubChapter) : String :=
  "<navPoint id=" ++ q1 ++ "navPoint-" ++ toString i ++ q1
    ++ " playOrder=" ++ q1 ++ toString i ++ q1
    ++ "><navLabel><text>" ++ htmlEscape ch.title ++ "</text></navLabel><content src="
    ++ q1 ++ chapterFileName i ++ q1 ++ "/></navPoint>"

/-- The per-chapter XHTML document (`extractor.py:225-238`): one escaped
`<p>` per non-empty stripped line of the chapter text.  (The `content`
local computed at line 223 is never used by the source either.) -/
def chapterXhtml (ch : EpubChapter) : String :=
  let t := htmlEscape ch.title
  let paras := ((splitOnChar '\n' ch.text.toList).map pyStrip).filter (fun p => !p.isEmpty)
  let parasStr :=
    String.intercalate "\n" (paras.map (fun p => "<p>" ++ (htmlEscapeL p).asString ++ "</p>"))
  "<?xml version=" ++ q1 ++ "1.0" ++ q1 ++ " encoding=" ++ q1 ++ "utf-8" ++ q1 ++ "?>\n"
    ++ "<html xmlns=" ++ q1 ++ "http://www.w3.org/1999/xhtml" ++ q1 ++ ">\n"
    ++ "<head><title>" ++ t ++ "</title></head>\n"
    ++ "<body>\n"
    ++ "<h1>" ++ t ++ "</h1>\n"
    ++ parasStr ++ "\n"
    ++ "</body>\n"
    ++ "</html>\n"

structure EpubParts where
  files : List (String × String)
  manifest : List String
  spine : List String
  nav : List String
deriving DecidableEq

/-- The loop of `_epub_template` (`extractor.py:220-250`), carrying the
1-based `enumerate` counter `i` and building the four per-chapter
collections in chapter order. -/
def epubParts (i : Nat) : List EpubChapter → EpubParts
  | [] => ⟨[], [], [], []⟩
  | ch :: rest =>
    let r := epubParts (i + 1) rest
    ⟨(chapterFileName i, chapterXhtml ch) :: r.files,
     manifestItem i :: r.manifest,
     spineItem i :: r.spine,
     navPointItem i ch :: r.nav⟩

/-- The fixed `toc.ncx` manifest item at `extractor.py:264`. -/
def ncxItem : String :=
  "<item id=" ++ q1 ++ "ncx" ++ q1 ++ " href=" ++ q1 ++ "toc.ncx" ++ q1
    ++ " media-type=" ++ q1 ++ "application/x-dtbncx+xml" ++ q1 ++ "/>"

/-- `content.opf` (`extractor.py:253-271`): the manifest holds the ncx item
followed by the chapter items, the spine holds `toc=ncx` followed by the
chapter itemrefs, both joined exactly as the source joins them. -/
def contentOpf (meta : EpubMeta) (manifestItems spineItems : List String) : String :=
  let uid := "urn:uuid:" ++ meta.id
  "<?xml version=" ++ q1 ++ "1.0" ++ q1 ++ " encoding=" ++ q1 ++ "utf-8" ++ q1 ++ "?>\n"
    ++ "<package xmlns=" ++ q1 ++ "http://www.idpf.org/2007/opf" ++ q1
    ++ " unique-identifier=" ++ q1 ++ "BookId" ++ q1 ++ " version=" ++ q1 ++ "2.0" ++ q1 ++ ">\n"
    ++ "  <metadata xmlns:dc=" ++ q1 ++ "http://purl.org/dc/elements/1.1/" ++ q1
    ++ " xmlns:opf=" ++ q1 ++ "http://www.idpf.org/2007/opf" ++ q1 ++ ">\n"
    ++ "    <dc:title>" ++ htmlEscape meta.title ++ "</dc:title>\n"
    ++ "    <dc:creator>" ++ htmlEscape meta.author ++ "</dc:creator>\n"
    ++ "    <dc:description>" ++ htmlEscape meta.description ++ "</dc:description>\n"
    ++ "    <dc:identifier id=" ++ q1 ++ "BookId" ++ q1 ++ ">" ++ uid ++ "</dc:identifier>\n"
    ++ "    <dc:language>en</dc:language>\n"
    ++ "  </metadata>\n"
    ++ "  <manifest>\n"
    ++ "    " ++ ncxItem ++ "\n"
    ++ "    " ++ String.intercalate "\n    " manifestItems ++ "\n"
    ++ "  </manifest>\n"
    ++ "  <spine toc=" ++ q1 ++ "ncx" ++ q1 ++ ">\n"
    ++ "    " ++ String.intercalate "\n    " spineItems ++ "\n"
    ++ "  </spine>\n"
    ++ "</package>"

/-- `toc.ncx` (`extractor.py:273-287`).  The docTitle line of the source is
a plain string, not an f-string, so the archive literally contains the text
`\x7btitle\x7d`; the model reproduces that. -/
def tocNcx (meta : EpubMeta) (navPoints : List String) : String :=
  let uid := "urn:uuid:" ++ meta.id
  "<?xml version=" ++ q1 ++ "1.0" ++ q1 ++ " encoding=" ++ q1 ++ "utf-8" ++ q1 ++ "?>\n"
    ++ "<ncx xmlns=" ++ q1 ++ "http://www.daisy.org/z3986/2005/ncx/" ++ q1
    ++ " version=" ++ q1 ++ "2005-1" ++ q1 ++ ">\n"
    ++ "  <head>\n"
    ++ "    <meta name=" ++ q1 ++ "dtb:uid" ++ q1 ++ " content=" ++ q1 ++ uid ++ q1 ++ "/>\n"
    ++ "    <meta name=" ++ q1 ++ "dtb:depth" ++ q1 ++ " content=" ++ q1 ++ "1" ++ q1 ++ "/>\n"
    ++ "    <meta name=" ++ q1 ++ "dtb:totalPageCount" ++ q1 ++ " content=" ++ q1 ++ "0" ++ q1 ++ "/>\n"
    ++ "    <meta name=" ++ q1 ++ "dtb:maxPageNumber" ++ q1 ++ " content=" ++ q1 ++ "0" ++ q1 ++ "/>\n"
    ++ "  </head>\n"
    ++ "  <docTitle><text>\x7btitle\x7d</text></docTitle>\n"
    ++ "  <navMap>\n"
    ++ "    " ++ String.intercalate "\n    " navPoints ++ "\n"
    ++ "  </navMap>\n"
    ++ "</ncx>"

/-- `META-INF/container.xml` (`extractor.py:289-296`). -/
def containerXml : String :=
  "<?xml version=" ++ q1 ++ "1.0" ++ q1 ++ " encoding=" ++ q1 ++ "utf-8" ++ q1 ++ "?>\n"
    ++ "<container version=" ++ q1 ++ "1.0" ++ q1
    ++ " xmlns=" ++ q1 ++ "urn:oasis:names:tc:opendocument:xmlns:container" ++ q1 ++ ">\n"
    ++ "  <rootfiles>\n"
    ++ "    <rootfile full-path=" ++ q1 ++ "content.opf" ++ q1
    ++ " media-type=" ++ q1 ++ "application/oebps-package+xml" ++ q1 ++ "/>\n"
    ++ "  </rootfiles>\n"
    ++ "</container>"

/-- `_epub_template` (`extractor.py:198-303`) as the ordered association
list of archive entry names to contents: the insertion order of the Python
dict is `content.opf`, `toc.ncx`, `META-INF/container.xml`, then the
chapter XHTML files. -/
def epubTemplate (meta : EpubMeta) (chapters : List EpubChapter) : List (String × String) :=
  let p := epubParts 1 chapters
  ("content.opf", contentOpf meta p.manifest p.spine)
    :: ("toc.ncx", tocNcx meta p.nav)
    :: ("META-INF/container.xml", containerXml)
    :: p.files

/-- `package_epub` (`extractor.py:306-328`): an empty chapter list raises
`ValueError` before anything is written; otherwise the archive is the
uncompressed `mimetype` entry followed by the template files.  Filesystem
and zip-level failures are outside the model. -/
def package_epub (meta : EpubMeta) (chapters : List EpubChapter) :
    Except String (List (String × String)) :=
  if chapters.isEmpty then
    Except.error "Cannot package an empty novel into an EPUB."
  else
    Except.ok (("mimetype", "application/epub+zip") :: epubTemplate meta chapters)

/-- The `<item>` elements of the `content.opf` manifest, in document
order: the navigation item first, then one per chapter. -/
def opfManifestEntries (chapters : List EpubChapter) : List String :=
  ncxItem :: (epubParts 1 chapters).manifest

def demoEpubChapters : List EpubChapter := [⟨"A", "x"⟩, ⟨"B", "y"⟩]

/-! ## HTML documents and `_extract_title_and_content` (extractor.py:69-118)

A parsed document is a tree of elements (tag, optional id attribute,
class list, children) and text nodes.  `findFirst` is `soup.find` with a
predicate: depth-first, document order, returning the first matching
element.  `findAllTags` is `find_all` with a tag list over the given
forest (a candidate passes its children, so the candidate itself is not in
its own results, as in BeautifulSoup).  `getTextSep` is
`get_text(separator=sep, strip=True)`: the stripped non-empty text
fragments below the node joined by the separator; `get_text(strip=True)`
with the default separator is `getTextSep []`.  The title branch of
`_extract_title_and_content` is independent of the body heuristics and is
not needed by any claim. -/

inductive HNode where
  | elem (tag : String) (idAttr : Option String) (classes : List String)
      (children : List HNode)
  | text (s : List Char)

def findFirst (p : String → Option String → List String → Bool) :
    List HNode → Option HNode
  | [] => none
  | HNode.text _ :: rest => findFirst p rest
  | HNode.elem t i c ch :: rest =>
    if p t i c then some (HNode.elem t i c ch)
    else
      match findFirst p ch with
      | some r => some r
      | none => findFirst p rest

def findAllTags (tags : List String) : List HNode → List HNode
  | [] => []
  | HNode.text _ :: rest => findAllTags tags rest
  | HNode.elem t i c ch :: rest =>
    (if tags.contains t then [HNode.elem t i c ch] else [])
      ++ findAllTags tags ch ++ findAllTags tags rest

def textLeaves : List HNode → List (List Char)
  | [] => []
  | HNode.text s :: rest => s :: textLeaves rest
  | HNode.elem _ _ _ ch :: rest => textLeaves ch ++ textLeaves rest

/-- Python `sep.join(pieces)`. -/
def joinSep (sep : List Char) : List (List Char) → List Char
  | [] => []
  | [x] => x
  | x :: y :: rest => x ++ sep ++ joinSep sep (y :: rest)

def getTextSep (sep : List Char) (n : HNode) : List Char :=
  joinSep sep (((textLeaves [n]).map pyStrip).filter (fun t => !t.isEmpty))

def elemChildren : HNode → List HNode
  | HNode.elem _ _ _ ch => ch
  | HNode.text _ => []

/-- `soup.find(id=i)`: any element whose id attribute is `i`. -/
def byId (i : String) : String → Option String → List String → Bool :=
  fun _ idAttr _ => idAttr = some i

/-- `soup.find("div", class_=cname)`: a div one of whose classes is
`cname`. -/
def byDivCls (cname : String) : String → Option String → List String → Bool :=
  fun t _ cls => t = "div" && cls.contains cname

/-- `soup.find(tag)`. -/
def byTag (tag : String) : String → Option String → List String → Bool :=
  fun t _ _ => t = tag

/-- The id candidates of `extractor.py:89`, in source order. -/
def idCandidates : List String :=
  ["chapter", "chapter-content", "content", "chapterContent", "text"]

/-- The class candidates of `extractor.py:93`, in source order. -/
def classCandidates : List String :=
  ["chapter-content", "entry-content", "post-content", "content"]

/-- The descendant tags gathered inside a candidate (`extractor.py:104`). -/
def paraTags : List String := ["p", "br", "div", "span"]

def nl2 : List Char := ['\n', '\n']

/-- The `candidates` list of `extractor.py:88-99`: each found id
candidate in order, then each found class candidate, then the article. -/
def candidateList (doc : HNode) : List HNode :=
  idCandidates.filterMap (fun i => findFirst (byId i) [doc])
    ++ classCandidates.filterMap (fun c => findFirst (byDivCls c) [doc])
    ++ (findFirst (byTag "article") [doc]).toList

/-- The non-empty fragment texts gathered inside one candidate
(`extractor.py:103-109`). -/
def candidateTexts (n : HNode) : List (List Char) :=
  ((findAllTags paraTags (elemChildren n)).map (getTextSep [' '])).filter
    (fun t => !t.isEmpty)

/-- What the loop body at `extractor.py:102-112` produces for one
candidate: `none` when the candidate yields no fragments (the loop moves
on), the fragments joined by blank lines when it does (the loop breaks). -/
def candidateContent (n : HNode) : Option (List Char) :=
  if (candidateTexts n).isEmpty then none else some (joinSep nl2 (candidateTexts n))

def contentLoop : List HNode → List Char
  | [] => []
  | c :: rest =>
    match candidateContent c with
    | some t => t
    | none => contentLoop rest

/-- The fallback of `extractor.py:113-117`: every `<p>` in the document
with a non-empty stripped text, joined by blank lines.  The guard uses
`get_text(strip=True)` (empty separator) exactly as the source does. -/
def fallbackContent (doc : HNode) : List Char :=
  joinSep nl2
    (((findAllTags ["p"] [doc]).filter (fun p => !(getTextSep [] p).isEmpty)).map
      (getTextSep [' ']))

/-- The body-text component of `_extract_title_and_content`
(`extractor.py:87-118`): the first candidate that yields fragments wins,
else the all-paragraphs fallback. -/
def extractContent (doc : HNode) : List Char :=
  let ct := contentLoop (candidateList doc)
  if ct.isEmpty then fallbackContent doc else ct

/-- The candidate locators in the fixed priority order that the spec
states: id candidates, then class candidates, then the article. -/
def locatorFinds (doc : HNode) : List (Option HNode) :=
  idCandidates.map (fun i => findFirst (byId i) [doc])
    ++ classCandidates.map (fun c => findFirst (byDivCls c) [doc])
    ++ [findFirst (byTag "article") [doc]]

def firstYieldAux : List (Option HNode) → Option (List Char)
  | [] => none
  | o :: rest =>
    match o.bind candidateContent with
    | some t => some t
    | none => firstYieldAux rest

/-- `contentChoiceSpec` follows the wording of the spec rather than the
source: try each candidate locator in the fixed priority order; a locator
that finds nothing, or whose container yields no non-empty text fragments,
is skipped in favour of the next; when none yields, fall through to the
all-paragraphs fallback. -/
def contentChoiceSpec (doc : HNode) : List Char :=
  match firstYieldAux (locatorFinds doc) with
  | some t => t
  | none => fallbackContent doc

/-- A container with `id="content"` holding one paragraph. -/
def demoContentDiv : HNode :=
  HNode.elem "div" (some "content") []
    [HNode.elem "p" none [] [HNode.text "Alpha.".toList]]

/-- An article holding a different paragraph. -/
def demoArticle : HNode :=
  HNode.elem "article" none []
    [HNode.elem "p" none [] [HNode.text "Beta.".toList]]

/-- A document containing both containers of the claim. -/
def demoDoc : HNode :=
  HNode.elem "html" none [] [HNode.elem "body" none [] [demoContentDiv, demoArticle]]

/-! ## `search_novels` (search.py:162-174)

When the whoosh import fails (`search.py:25-32`), the name `whoosh_index`
is never bound.  The guard at `search.py:168` is parsed as
`(_WHOOSH_AVAILABLE and writelock.exists()) or whoosh_index.exists_in(dir)`,
so with `_WHOOSH_AVAILABLE` false the left disjunct is false and Python
evaluates the right one, which raises `NameError` before any search runs.
The try/except around `_search_whoosh` only catches failures of the
whoosh search itself. -/

inductive SearchOutcome where
  | results (ids : List String)
  | exn (name : String)
deriving DecidableEq

def search_novels (whooshAvailable writelockExists indexExists : Bool)
    (whooshSearch : Except String (List String)) (naive : List String) : SearchOutcome :=
  if whooshAvailable then
    if writelockExists || indexExists then
      match whooshSearch with
      | Except.ok ids => SearchOutcome.results ids
      | Except.error _ => SearchOutcome.results naive
    else SearchOutcome.results naive
  else SearchOutcome.exn "NameError"

/-! ## Lemmas about stripping, joining and spans -/

theorem dropWhile_length_le (p : Char → Bool) :
    ∀ l : List Char, (l.dropWhile p).length ≤ l.length := by
  intro l
  induction l with
  | nil => simp
  | cons c rest ih =>
    by_cases h : p c
    · simp [List.dropWhile_cons, h]; omega
    · simp [List.dropWhile_cons, h]

theorem pyStrip_length_le (l : List Char) : (pyStrip l).length ≤ l.length := by
  unfold pyStrip
  have h1 := dropWhile_length_le isSpc l
  have h2 := dropWhile_length_le isSpc (l.dropWhile isSpc).reverse
  simp only [List.length_reverse] at *
  omega

theorem joinSpace_cons (x : List Char) (xs : List (List Char)) (h : xs ≠ []) :
    joinSpace (x :: xs) = x ++ ' ' :: joinSpace xs := by
  cases xs with
  | nil => exact absurd rfl h
  | cons y ys => rfl

theorem joinSpace_append (xs ys : List (List Char)) (hx : xs ≠ []) (hy : ys ≠ []) :
    joinSpace (xs ++ ys) = joinSpace xs ++ ' ' :: joinSpace ys := by
  induction xs with
  | nil => exact absurd rfl hx
  | cons x xt ih =>
    cases xt with
    | nil =>
      cases ys with
      | nil => exact absurd rfl hy
      | cons y yt => simp [joinSpace]
    | cons x2 xt2 =>
      rw [List.cons_append, joinSpace_cons, joinSpace_cons, ih]
      · simp
      · exact List.cons_ne_nil _ _
      · exact List.cons_ne_nil _ _
      · exact (List.append_ne_nil_of_left_ne_nil (List.cons_ne_nil _ _) _)

theorem head?_append_left {l : List Char} (l' : List Char) (h : l ≠ []) :
    (l ++ l').head? = l.head? := by
  cases l with
  | nil => exact absurd rfl h
  | cons a t => rfl

theorem isTerm_not_spc {c : Char} (h : isTerm c = true) : isSpc c = false := by
  simp only [isTerm, Bool.or_eq_true, decide_eq_true_eq] at h
  rcases h with h | h
  · rcases h with h | h <;> (subst h; decide)
  · subst h; decide

/-- Every span the sentence splitter emits is non-empty with non-blank
ends, provided the remaining input is (which `pyStrip` guarantees for the
initial call on a stripped, non-empty paragraph). -/
theorem sentAux_goodSpan :
    ∀ (l cur : List Char) (sk : Bool),
      (sk = true → cur = [] ∧ l ≠ [] ∧ noHeadSpc l.reverse) →
      (sk = false → goodSpan (cur.reverse ++ l)) →
      ∀ s ∈ sentAux l cur sk, goodSpan s := by
  intro l
  induction l with
  | nil =>
    intro cur sk hT hF s hs
    cases sk with
    | false =>
      simp only [sentAux, List.mem_singleton] at hs
      subst hs
      have h := hF rfl
      rwa [List.append_nil] at h
    | true => exact absurd rfl (hT rfl).2.1
  | cons c rest ih =>
    intro cur sk hT hF s hs
    cases sk with
    | true =>
      obtain ⟨hcur, hne, hlast⟩ := hT rfl
      subst hcur
      simp only [sentAux] at hs
      by_cases hspc : isSpc c = true
      · rw [if_pos hspc] at hs
        have hrev : (c :: rest).reverse = rest.reverse ++ [c] := by simp
        have hrne : rest ≠ [] := by
          intro h0
          subst h0
          have := hlast c (by simp)
          rw [this] at hspc
          exact Bool.false_ne_true hspc
        have hrrne : rest.reverse ≠ [] := by
          simpa using hrne
        refine ih [] true (fun _ => ⟨rfl, hrne, ?_⟩) (fun h => absurd h (by simp)) s hs
        intro d hd
        apply hlast d
        rw [hrev, head?_append_left [c] hrrne]
        exact hd
      · rw [if_neg hspc] at hs
        refine ih [c] false (fun h => absurd h (by simp)) (fun _ => ?_) s hs
        simp only [List.reverse_singleton, List.singleton_append]
        refine ⟨List.cons_ne_nil _ _, ?_, ?_⟩
        · intro d hd
          simp only [List.head?_cons, Option.some.injEq] at hd
          subst hd
          exact Bool.eq_false_iff.mpr hspc
        · exact hlast
    | false =>
      obtain ⟨hne0, hh0, hr0⟩ := hF rfl
      simp only [sentAux] at hs
      by_cases hm : sentMatch cur c = true
      · rw [if_pos hm] at hs
        cases cur with
        | nil => simp [sentMatch] at hm
        | cons p cur2 =>
          have hterm : isTerm p = true := by
            simpa [sentMatch] using (Bool.and_eq_true_iff.mp hm).1
          have hspc : isSpc c = true := (Bool.and_eq_true_iff.mp hm).2
          have hcne : (p :: cur2).reverse ≠ [] := by simp
          rcases List.mem_cons.mp hs with rfl | hs2
          · refine ⟨hcne, ?_, ?_⟩
            · intro d hd
              apply hh0 d
              rw [head?_append_left _ hcne]
              exact hd
            · rw [List.reverse_reverse]
              intro d hd
              simp only [List.head?_cons, Option.some.injEq] at hd
              subst hd
              exact isTerm_not_spc hterm
          · have hrevfact : ((p :: cur2).reverse ++ c :: rest).reverse
                = rest.reverse ++ [c] ++ (p :: cur2) := by
              simp
            have hrne : rest ≠ [] := by
              intro h0
              subst h0
              have := hr0 c (by rw [hrevfact]; simp)
              rw [this] at hspc
              exact Bool.false_ne_true hspc
            have hrrne : rest.reverse ≠ [] := by simpa using hrne
            refine ih [] true (fun _ => ⟨rfl, hrne, ?_⟩)
              (fun h => absurd h (by simp)) s hs2
            intro d hd
            apply hr0 d
            rw [hrevfact, List.append_assoc, head?_append_left _ hrrne]
            exact hd
      · rw [if_neg hm] at hs
        refine ih (c :: cur) false (fun h => absurd h (by simp)) (fun _ => ?_) s hs
        have : (c :: cur).reverse ++ rest = cur.reverse ++ c :: rest := by
          simp
        rw [this]
        exact hF rfl

theorem noHeadSpc_dropWhile (l : List Char) : noHeadSpc (l.dropWhile isSpc) := by
  induction l with
  | nil => intro c hc; simp at hc
  | cons a t ih =>
    by_cases ha : isSpc a = true
    · simpa [List.dropWhile_cons, ha] using ih
    · intro c hc
      rw [List.dropWhile_cons, if_neg ha] at hc
      simp only [List.head?_cons, Option.some.injEq] at hc
      subst hc
      exact Bool.eq_false_iff.mpr ha

theorem getLast?_dropWhile (p : Char → Bool) :
    ∀ l : List Char, l.dropWhile p ≠ [] → (l.dropWhile p).getLast? = l.getLast? := by
  intro l
  induction l with
  | nil => intro h; simp at h
  | cons a t ih =>
    intro h
    by_cases ha : p a = true
    · rw [List.dropWhile_cons, if_pos ha] at h ⊢
      have htne : t ≠ [] := by
        intro h0
        subst h0
        simp at h
      cases t with
      | nil => exact absurd rfl htne
      | cons b t2 => rw [ih h, List.getLast?_cons_cons]
    · rw [List.dropWhile_cons, if_neg ha]

theorem pyStrip_goodSpan (l : List Char) (h : pyStrip l ≠ []) : goodSpan (pyStrip l) := by
  refine ⟨h, ?_, ?_⟩
  · intro c hc
    unfold pyStrip at h hc
    have hvne : (l.dropWhile isSpc).reverse.dropWhile isSpc ≠ [] := by
      intro h0
      rw [h0] at h
      exact h rfl
    rw [List.head?_reverse, getLast?_dropWhile isSpc _ hvne, List.getLast?_reverse] at hc
    exact noHeadSpc_dropWhile l c hc
  · unfold pyStrip
    rw [List.reverse_reverse]
    exact noHeadSpc_dropWhile _

theorem sentences_goodSpan (text : List Char) : ∀ s ∈ sentences text, goodSpan s := by
  intro s hs
  simp only [sentences, List.mem_flatten, List.mem_map, List.mem_filter] at hs
  obtain ⟨l, ⟨p, ⟨⟨p0, hp0, rfl⟩, hne⟩, rfl⟩, hsl⟩ := hs
  refine sentAux_goodSpan _ [] false (fun h => absurd h (by simp)) (fun _ => ?_) s hsl
  simp only [List.reverse_nil, List.nil_append]
  refine pyStrip_goodSpan p0 ?_
  simpa using hne

theorem dropWhile_eq_self_of_noHeadSpc {l : List Char} (h : noHeadSpc l) :
    l.dropWhile isSpc = l := by
  cases l with
  | nil => rfl
  | cons a t =>
    have := h a rfl
    simp [List.dropWhile_cons, this]

theorem pyStrip_eq_self {l : List Char} (h : goodSpan l) : pyStrip l = l := by
  obtain ⟨hne, hh, hr⟩ := h
  unfold pyStrip
  rw [dropWhile_eq_self_of_noHeadSpc hh, dropWhile_eq_self_of_noHeadSpc hr,
    List.reverse_reverse]

theorem goodSpan_joinSpace :
    ∀ bs : List (List Char), bs ≠ [] → (∀ b ∈ bs, goodSpan b) →
      goodSpan (joinSpace bs) := by
  intro bs
  induction bs with
  | nil => intro h; exact absurd rfl h
  | cons b bt ih =>
    intro _ hg
    cases bt with
    | nil => exact hg b (by simp)
    | cons b2 bt2 =>
      have hgb := hg b (by simp)
      have hrest := ih (List.cons_ne_nil _ _) (fun x hx => hg x (List.mem_cons_of_mem _ hx))
      rw [joinSpace_cons b _ (List.cons_ne_nil _ _)]
      obtain ⟨hbne, hbh, hbr⟩ := hgb
      obtain ⟨hjne, hjh, hjr⟩ := hrest
      have hjrne : (joinSpace (b2 :: bt2)).reverse ≠ [] := by simpa using hjne
      refine ⟨by simp, ?_, ?_⟩
      · intro d hd
        apply hbh d
        rwa [head?_append_left _ hbne] at hd
      · intro d hd
        apply hjr d
        rw [List.reverse_append, List.reverse_cons, List.append_assoc,
          head?_append_left _ hjrne] at hd
        exact hd

/-! ## Lemmas about the greedy chunk loop -/

theorem chunkGo_bound (maxChars : Nat) (S : List (List Char)) :
    ∀ (ss buf : List (List Char)) (curLen : Nat),
      (∀ s ∈ ss, s ∈ S) →
      (joinSpace buf).length ≤ curLen →
      (buf ≠ [] → (∃ s, s ∈ S ∧ buf = [s]) ∨ (joinSpace buf).length ≤ maxChars) →
      ∀ c ∈ chunkGo maxChars buf curLen ss,
        c.length ≤ maxChars ∨ ∃ s, s ∈ S ∧ c = pyStrip s ∧ maxChars < s.length := by
  intro ss
  induction ss with
  | nil =>
    intro buf curLen _ hlen hinv c hc
    simp only [chunkGo] at hc
    by_cases hb : buf.isEmpty
    · simp [hb] at hc
    · simp [hb] at hc
      subst hc
      have hbne : buf ≠ [] := by
        cases buf with
        | nil => simp at hb
        | cons a t => exact List.cons_ne_nil _ _
      rcases hinv hbne with ⟨s, hs, rfl⟩ | hle
      · simp only [joinSpace]
        by_cases hcl : (pyStrip s).length ≤ maxChars
        · exact Or.inl hcl
        · exact Or.inr ⟨s, hs, rfl, lt_of_lt_of_le (lt_of_not_le hcl) (pyStrip_length_le s)⟩
      · exact Or.inl (le_trans (pyStrip_length_le _) hle)
  | cons t rest ih =>
    intro buf curLen hss hlen hinv c hc
    have htS : t ∈ S := hss t (List.mem_cons_self _ _)
    have hrest : ∀ s ∈ rest, s ∈ S := fun s hs => hss s (List.mem_cons_of_mem _ hs)
    simp only [chunkGo] at hc
    by_cases hcond : curLen + t.length + 1 > maxChars && !buf.isEmpty
    · rw [if_pos hcond] at hc
      have hbne : buf ≠ [] := by
        rcases Bool.and_eq_true_iff.mp hcond with ⟨_, hb⟩
        cases buf with
        | nil => simp at hb
        | cons a l => exact List.cons_ne_nil _ _
      rcases List.mem_cons.mp hc with rfl | hc2
      · rcases hinv hbne with ⟨s, hs, rfl⟩ | hle
        · simp only [joinSpace]
          by_cases hcl : (pyStrip s).length ≤ maxChars
          · exact Or.inl hcl
          · exact Or.inr ⟨s, hs, rfl, lt_of_lt_of_le (lt_of_not_le hcl) (pyStrip_length_le s)⟩
        · exact Or.inl (le_trans (pyStrip_length_le _) hle)
      · refine ih [t] t.length hrest ?_ ?_ c hc2
        · simp [joinSpace]
        · intro _; exact Or.inl ⟨t, htS, rfl⟩
    · rw [if_neg hcond] at hc
      refine ih (buf ++ [t]) (curLen + t.length + 1) hrest ?_ ?_ c hc
      · cases hb : buf with
        | nil =>
          simp only [List.nil_append, joinSpace]
          omega
        | cons a l =>
          rw [← hb, joinSpace_append buf [t] (by simp [hb]) (List.cons_ne_nil _ _)]
          simp only [joinSpace, List.length_append, List.length_cons]
          rw [hb] at hlen
          rw [← hb] at hlen
          omega
      · intro _
        cases hb : buf with
        | nil => exact Or.inl ⟨t, htS, by simp⟩
        | cons a l =>
          right
          have hble : ¬ (curLen + t.length + 1 > maxChars) := by
            intro hgt
            apply hcond
            simp [hgt, hb]
          rw [← hb, joinSpace_append buf [t] (by simp [hb]) (List.cons_ne_nil _ _)]
          simp only [joinSpace, List.length_append, List.length_cons]
          omega

theorem chunkGo_ne_nil (maxChars : Nat) :
    ∀ (ss buf : List (List Char)) (curLen : Nat), buf ≠ [] →
      chunkGo maxChars buf curLen ss ≠ [] := by
  intro ss
  induction ss with
  | nil =>
    intro buf curLen hb
    have : buf.isEmpty = false := by
      cases buf with
      | nil => exact absurd rfl hb
      | cons a t => rfl
    simp [chunkGo, this]
  | cons t rest ih =>
    intro buf curLen hb
    simp only [chunkGo]
    by_cases hcond : curLen + t.length + 1 > maxChars && !buf.isEmpty
    · rw [if_pos hcond]
      exact List.cons_ne_nil _ _
    · rw [if_neg hcond]
      exact ih _ _ (by simp)

theorem chunkGo_join (maxChars : Nat) :
    ∀ (ss buf : List (List Char)) (curLen : Nat), buf ≠ [] →
      (∀ b ∈ buf, goodSpan b) → (∀ s ∈ ss, goodSpan s) →
      joinSpace (chunkGo maxChars buf curLen ss) = joinSpace (buf ++ ss) := by
  intro ss
  induction ss with
  | nil =>
    intro buf curLen hb hgb _
    have hemp : buf.isEmpty = false := by
      cases buf with
      | nil => exact absurd rfl hb
      | cons a t => rfl
    simp only [chunkGo, hemp, Bool.false_eq_true, if_false, List.append_nil]
    show joinSpace [pyStrip (joinSpace buf)] = joinSpace buf
    simp only [joinSpace]
    exact pyStrip_eq_self (goodSpan_joinSpace buf hb hgb)
  | cons t rest ih =>
    intro buf curLen hb hgb hgs
    have hgt : goodSpan t := hgs t (List.mem_cons_self _ _)
    have hgrest : ∀ s ∈ rest, goodSpan s := fun s h => hgs s (List.mem_cons_of_mem _ h)
    simp only [chunkGo]
    by_cases hcond : curLen + t.length + 1 > maxChars && !buf.isEmpty
    · rw [if_pos hcond]
      rw [joinSpace_cons _ _ (chunkGo_ne_nil maxChars rest [t] t.length (List.cons_ne_nil _ _))]
      rw [pyStrip_eq_self (goodSpan_joinSpace buf hb hgb)]
      rw [ih [t] t.length (List.cons_ne_nil _ _) (by simpa using hgt) hgrest]
      rw [List.singleton_append]
      rw [← joinSpace_append buf (t :: rest) hb (List.cons_ne_nil _ _)]
    · rw [if_neg hcond]
      rw [ih (buf ++ [t]) (curLen + t.length + 1) (by simp)
        (by
          intro b hbm
          rcases List.mem_append.mp hbm with h | h
          · exact hgb b h
          · rw [List.mem_singleton.mp h]; exact hgt) hgrest]
      rw [List.append_assoc, List.singleton_append]

/-! ## Claims C4 and C5 -/

/-- C4: every chunk returned by `chunk_text` has length at most `maxChars`,
except a chunk consisting of a single (stripped) sentence span whose own
length exceeds `maxChars` — spans are never split mid-sentence. -/
theorem chunkText_size_bound (text : List Char) (maxChars : Nat) (c : List Char)
    (hc : c ∈ chunk_text text maxChars) :
    c.length ≤ maxChars ∨
      ∃ s, s ∈ sentences text ∧ c = pyStrip s ∧ maxChars < s.length :=
  chunkGo_bound maxChars (sentences text) (sentences text) [] 0
    (fun _ hs => hs) (by simp [joinSpace]) (fun h => absurd rfl h) c hc

theorem chunkText_size_bound_witness :
    ("Hi.".toList ∈ chunk_text "Hi. Yo.".toList 3) ∧
      ("Hi.".toList.length ≤ 3 ∨
        ∃ s, s ∈ sentences "Hi. Yo.".toList ∧ "Hi.".toList = pyStrip s ∧ 3 < s.length) :=
  ⟨by decide, chunkText_size_bound "Hi. Yo.".toList 3 "Hi.".toList (by decide)⟩

/-- C5: chunking is order-preserving and loss-less — joining the chunks
with single spaces at the merge boundaries gives the same character
sequence as joining the sentence spans of the input (paragraphs split on
newlines, then sentence boundaries after a terminator followed by
whitespace). -/
theorem chunkText_lossless (text : List Char) (maxChars : Nat) :
    joinSpace (chunk_text text maxChars) = joinSpace (sentences text) := by
  unfold chunk_text
  cases hs : sentences text with
  | nil => rfl
  | cons s ss =>
    have hgood : ∀ x ∈ s :: ss, goodSpan x := by
      rw [← hs]; exact sentences_goodSpan text
    simp only [chunkGo, List.isEmpty_nil, Bool.not_true, Bool.and_false,
      Bool.false_eq_true, if_false, List.nil_append]
    rw [chunkGo_join maxChars ss [s] (0 + s.length + 1) (List.cons_ne_nil _ _)
      (by simpa using hgood s (List.mem_cons_self _ _))
      (fun x hx => hgood x (List.mem_cons_of_mem _ hx))]
    rw [List.singleton_append]

/-! ## Lemmas about the extraction orchestrator -/

theorem extractGo_fail (total : Nat) (exc : Option String) :
    ∀ (pre : List ChapterContent) (i : Nat) (acc : List ChapterRec)
      (rest : List (Option ChapterContent)),
      extractGo total exc i acc (pre.map some ++ none :: rest)
        = { trace := extractProgressTrace total i pre
              ++ [⟨some JobStatus.error, none,
                    some ("Failed to extract chapter " ++ toString (i + pre.length))⟩],
            chapters := acc ++ mkRecords i pre,
            novelStatus := "error" } := by
  intro pre
  induction pre with
  | nil =>
    intro i acc rest
    simp [extractGo, extractProgressTrace, mkRecords]
  | cons c cs ih =>
    intro i acc rest
    simp only [List.map_cons, List.cons_append, extractGo, List.append_eq]
    rw [ih (i + 1) (acc ++ [mkChapterRec i c]) rest]
    have h1 : i + 1 + cs.length = i + (cs.length + 1) := by omega
    simp [ExtractRun.mk.injEq, extractProgressTrace, h1, mkRecords]

theorem mkRecords_idx : ∀ (cs : List ChapterContent) (i : Nat) (ch : ChapterRec),
    ch ∈ mkRecords i cs → i ≤ ch.idx ∧ ch.idx < i + cs.length := by
  intro cs
  induction cs with
  | nil => intro i ch h; simp [mkRecords] at h
  | cons c ct ih =>
    intro i ch h
    rcases List.mem_cons.mp h with rfl | h2
    · simp [mkChapterRec]
    · have := ih (i + 1) ch h2
      simp only [List.length_cons]
      omega

theorem finalJob_append_error (tr : List JobUpdate) (m : String) :
    finalJob (tr ++ [⟨some JobStatus.error, none, some m⟩])
      = { status := JobStatus.error,
          progress := (finalJob tr).progress,
          error := some m } := by
  unfold finalJob
  rw [List.foldl_append]
  rfl

theorem runExtract_fail (pre : List ChapterContent)
    (rest : List (Option ChapterContent)) (exc : Option String) :
    runExtract (pre.map some ++ none :: rest) exc
      = { trace := (⟨some JobStatus.running, some 0, none⟩ ::
            extractProgressTrace (pre.map some ++ none :: rest).length 1 pre)
              ++ [⟨some JobStatus.error, none,
                    some ("Failed to extract chapter " ++ toString (pre.length + 1))⟩],
          chapters := mkRecords 1 pre,
          novelStatus := "error" } := by
  simp only [runExtract]
  rw [extractGo_fail]
  have h1 : 1 + pre.length = pre.length + 1 := by omega
  rw [h1]
  rfl

/-! ## Claims C1, C2, C3 -/

/-- C1: the claim is false on the code.  After a one-chapter extraction
succeeds and the job is marked done with progress 100, a failure of the
final `search.update_index` call is caught by the job-wide handler, which
overwrites the job status to error and marks the novel error; with a
healthy index the same run ends done / ready. -/
theorem extract_index_failure_overwrites_done :
    (runExtract [some ⟨"T", "body"⟩] (some "index boom")).trace
        = [⟨some JobStatus.running, some 0, none⟩, ⟨none, some 50, none⟩,
           ⟨some JobStatus.done, some 100, none⟩,
           ⟨some JobStatus.error, none, some "index boom"⟩] ∧
      (finalJob (runExtract [some ⟨"T", "body"⟩] (some "index boom")).trace).status
        = JobStatus.error ∧
      (runExtract [some ⟨"T", "body"⟩] (some "index boom")).novelStatus = "error" ∧
      (finalJob (runExtract [some ⟨"T", "body"⟩] none).trace).status = JobStatus.done ∧
      (runExtract [some ⟨"T", "body"⟩] none).novelStatus = "ready" :=
  ⟨rfl, rfl, rfl, rfl, rfl⟩

/-- C2: extraction is all-or-nothing.  When the chapters before position
k = `pre.length + 1` extract successfully and chapter k fails, the job ends
in status error with the chapter-k message, the novel status becomes error,
the persisted chapter rows are exactly the records of the successful prefix
(unchanged, in order), and no row with index ≥ k exists. -/
theorem extract_all_or_nothing (pre : List ChapterContent)
    (rest : List (Option ChapterContent)) (exc : Option String) :
    (finalJob (runExtract (pre.map some ++ none :: rest) exc).trace).status
        = JobStatus.error ∧
    (finalJob (runExtract (pre.map some ++ none :: rest) exc).trace).error
        = some ("Failed to extract chapter " ++ toString (pre.length + 1)) ∧
    (runExtract (pre.map some ++ none :: rest) exc).novelStatus = "error" ∧
    (runExtract (pre.map some ++ none :: rest) exc).chapters = mkRecords 1 pre ∧
    ∀ ch ∈ (runExtract (pre.map some ++ none :: rest) exc).chapters,
      ch.idx < pre.length + 1 := by
  rw [runExtract_fail]
  rw [finalJob_append_error]
  refine ⟨rfl, rfl, rfl, rfl, ?_⟩
  intro ch hch
  have := (mkRecords_idx pre 1 ch hch).2
  omega

/-- C3: the freeze half of the claim is false on the code.  In the same
index-failure run, the job state after the first three updates is done /
100 / no error, yet the final update of the very same orchestrator run
changes the status to error and the error field from none to the exception
text — terminal status does not freeze the error field. -/
theorem job_terminal_freeze_violated :
    (finalJob ((runExtract [some ⟨"A", "t"⟩] (some "boom")).trace.take 3)).status
        = JobStatus.done ∧
      (finalJob ((runExtract [some ⟨"A", "t"⟩] (some "boom")).trace.take 3)).progress = 100 ∧
      (finalJob ((runExtract [some ⟨"A", "t"⟩] (some "boom")).trace.take 3)).error = none ∧
      (finalJob (runExtract [some ⟨"A", "t"⟩] (some "boom")).trace).status
        = JobStatus.error ∧
      (finalJob (runExtract [some ⟨"A", "t"⟩] (some "boom")).trace).error = some "boom" :=
  ⟨rfl, rfl, rfl, rfl, rfl⟩

/-! ## Claim C6 -/

theorem ttsNovelGo_all_skip (total : Nat) (pname : String) (synthDur : List Char → Nat) :
    ∀ (chs : List ChapterRec) (i : Nat), (∀ ch ∈ chs, ch.audioPath.isSome) →
      ttsNovelGo total pname synthDur none i chs
        = { trace := [⟨some JobStatus.done, some 100, none⟩],
            chapters := chs, synthCalls := 0 } := by
  intro chs
  induction chs with
  | nil => intro i _; rfl
  | cons ch rest ih =>
    intro i hall
    have hch : ch.audioPath.isSome := hall ch (List.mem_cons_self _ _)
    have hrest : ∀ c ∈ rest, c.audioPath.isSome :=
      fun c hc => hall c (List.mem_cons_of_mem _ hc)
    simp only [ttsNovelGo, hch, if_true, ih (i + 1) hrest]

/-- C6 counterexample: a novel with no chapters — vacuously, all its
chapters have audio — makes `background_tts_novel` raise
`ValueError("Novel has no chapters")`, so the job ends in status error
rather than done (the claim as stated quantifies over every such novel). -/
theorem ttsNovel_empty_novel_errors :
    (finalJob (runTtsNovel [] "silent" (fun _ => 1) none).trace).status
        = JobStatus.error ∧
      JobStatus.error ≠ JobStatus.done ∧
      (runTtsNovel [] "silent" (fun _ => 1) none).synthCalls = 0 :=
  ⟨rfl, by decide, rfl⟩

/-- C6 (amended): for every novel with at least one chapter, all of whose
chapters already have audio set, the novel-wide synthesis job performs zero
synthesize calls, leaves every chapter row unchanged, and — when the
closing search-index update does not raise — ends done with progress
100. -/
theorem ttsNovel_idempotent (chapters : List ChapterRec) (pname : String)
    (synthDur : List Char → Nat) (hne : chapters ≠ [])
    (hall : ∀ ch ∈ chapters, ch.audioPath.isSome) :
    (runTtsNovel chapters pname synthDur none).synthCalls = 0 ∧
    (runTtsNovel chapters pname synthDur none).chapters = chapters ∧
    (finalJob (runTtsNovel chapters pname synthDur none).trace).status = JobStatus.done ∧
    (finalJob (runTtsNovel chapters pname synthDur none).trace).progress = 100 := by
  have hemp : chapters.isEmpty = false := by
    cases chapters with
    | nil => exact absurd rfl hne
    | cons a t => rfl
  simp only [runTtsNovel, hemp, Bool.false_eq_true, if_false,
    ttsNovelGo_all_skip chapters.length pname synthDur chapters 1 hall]
  simp [finalJob, applyUpdate, jobInit]

theorem ttsNovel_idempotent_witness :
    (([demoChapterDone] : List ChapterRec) ≠ [] ∧
      ∀ ch ∈ [demoChapterDone], ch.audioPath.isSome) ∧
    ((runTtsNovel [demoChapterDone] "silent" (fun _ => 1) none).synthCalls = 0 ∧
      (runTtsNovel [demoChapterDone] "silent" (fun _ => 1) none).chapters = [demoChapterDone] ∧
      (finalJob (runTtsNovel [demoChapterDone] "silent" (fun _ => 1) none).trace).status
        = JobStatus.done ∧
      (finalJob (runTtsNovel [demoChapterDone] "silent" (fun _ => 1) none).trace).progress
        = 100) :=
  ⟨⟨by decide, by decide⟩,
    ttsNovel_idempotent [demoChapterDone] "silent" (fun _ => 1) (by decide) (by decide)⟩

/-! ## Claims C7 and C8 -/

/-- C7: `package_epub` with an empty chapter list always fails with the
validation error and produces no archive; with any non-empty chapter list
it does not raise this error. -/
theorem packageEpub_empty_iff (meta : EpubMeta) (chapters : List EpubChapter) :
    package_epub meta [] = Except.error "Cannot package an empty novel into an EPUB." ∧
      ((package_epub meta chapters).isOk ↔ chapters ≠ []) := by
  refine ⟨rfl, ?_⟩
  cases chapters with
  | nil => simp [package_epub, Except.isOk, Except.toBool]
  | cons c rest => simp [package_epub, Except.isOk, Except.toBool]

theorem epubParts_lengths : ∀ (chs : List EpubChapter) (b : Nat),
    (epubParts b chs).manifest.length = chs.length ∧
    (epubParts b chs).spine.length = chs.length ∧
    (epubParts b chs).nav.length = chs.length := by
  intro chs
  induction chs with
  | nil => intro b; exact ⟨rfl, rfl, rfl⟩
  | cons c ct ih =>
    intro b
    have := ih (b + 1)
    simp only [epubParts, List.length_cons]
    omega

theorem epubParts_get : ∀ (chs : List EpubChapter) (b j : Nat) (h : j < chs.length),
    (epubParts b chs).manifest[j]? = some (manifestItem (b + j)) ∧
    (epubParts b chs).spine[j]? = some (spineItem (b + j)) ∧
    (epubParts b chs).nav[j]? = some (navPointItem (b + j) (chs.get ⟨j, h⟩)) := by
  intro chs
  induction chs with
  | nil => intro b j h; simp at h
  | cons c ct ih =>
    intro b j h
    cases j with
    | zero => simp [epubParts]
    | succ j2 =>
      have h2 : j2 < ct.length := by simpa using h
      have := ih (b + 1) j2 h2
      simp only [epubParts, List.getElem?_cons_succ, List.get, List.length_cons]
      have harith : b + 1 + j2 = b + (j2 + 1) := by omega
      rw [← harith]
      exact this

/-- C8: the opf manifest lists the navigation item plus exactly one item
per chapter, the spine lists exactly one itemref per chapter (its `toc`
attribute referencing the navigation document), and the i-th manifest,
spine and navMap entries are exactly the elements generated for chapter i
with 1-based position i+1 — in particular each `navPoint` carries
`playOrder` equal to its chapter's 1-based position. -/
theorem epub_manifest_spine_nav (chs : List EpubChapter) :
    (opfManifestEntries chs).length = chs.length + 1 ∧
    (opfManifestEntries chs).head? = some ncxItem ∧
    (epubParts 1 chs).spine.length = chs.length ∧
    (epubParts 1 chs).nav.length = chs.length ∧
    ∀ i : Nat, ∀ h : i < chs.length,
      (epubParts 1 chs).manifest[i]? = some (manifestItem (i + 1)) ∧
      (epubParts 1 chs).spine[i]? = some (spineItem (i + 1)) ∧
      (epubParts 1 chs).nav[i]? = some (navPointItem (i + 1) (chs.get ⟨i, h⟩)) := by
  obtain ⟨hm, hsp, hn⟩ := epubParts_lengths chs 1
  refine ⟨by simp [opfManifestEntries, hm], rfl, hsp, hn, ?_⟩
  intro i h
  have := epubParts_get chs 1 i h
  have harith : 1 + i = i + 1 := by omega
  rw [harith] at this
  exact this

theorem epub_manifest_spine_nav_witness :
    (1 < demoEpubChapters.length) ∧
      ((epubParts 1 demoEpubChapters).manifest[1]? = some (manifestItem 2) ∧
        (epubParts 1 demoEpubChapters).spine[1]? = some (spineItem 2) ∧
        (epubParts 1 demoEpubChapters).nav[1]?
          = some (navPointItem 2 (demoEpubChapters.get ⟨1, by decide⟩))) :=
  ⟨by decide, (epub_manifest_spine_nav demoEpubChapters).2.2.2.2 1 (by decide)⟩

/-! ## Lemmas for claim C9 -/

theorem contentLoop_eq (l : List HNode) :
    contentLoop l = ((l.filterMap candidateContent).head?).getD [] := by
  induction l with
  | nil => rfl
  | cons c rest ih =>
    simp only [contentLoop, List.filterMap_cons]
    cases h : candidateContent c with
    | none => simpa [h] using ih
    | some t => simp [h]

theorem firstYieldAux_eq (os : List (Option HNode)) :
    firstYieldAux os = ((os.filterMap id).filterMap candidateContent).head? := by
  induction os with
  | nil => rfl
  | cons o rest ih =>
    cases o with
    | none => simpa [firstYieldAux] using ih
    | some n =>
      simp only [firstYieldAux, Option.bind, List.filterMap_cons, id]
      cases h : candidateContent n with
      | none => simpa [h] using ih
      | some t => simp [h]

theorem candidateList_eq (doc : HNode) :
    candidateList doc = (locatorFinds doc).filterMap id := by
  simp only [candidateList, locatorFinds, List.filterMap_append, List.filterMap_map,
    Function.id_comp]
  cases findFirst (byTag "article") [doc] <;> rfl

theorem joinSep_ne_nil (sep : List Char) (a : List Char) (rest : List (List Char))
    (ha : a ≠ []) : joinSep sep (a :: rest) ≠ [] := by
  cases rest with
  | nil => simpa [joinSep] using ha
  | cons b bs =>
    simp only [joinSep]
    intro h
    rcases List.append_eq_nil.mp h with ⟨h1, _⟩
    rcases List.append_eq_nil.mp h1 with ⟨h2, _⟩
    exact ha h2

theorem candidateContent_ne_nil {n : HNode} {t : List Char}
    (h : candidateContent n = some t) : t ≠ [] := by
  unfold candidateContent at h
  by_cases he : (candidateTexts n).isEmpty
  · simp [he] at h
  · simp only [he, Bool.false_eq_true, if_false, Option.some.injEq] at h
    subst h
    cases hct : candidateTexts n with
    | nil => simp [hct] at he
    | cons a rest =>
      have ha : a ≠ [] := by
        have : a ∈ candidateTexts n := by rw [hct]; exact List.mem_cons_self _ _
        have := List.of_mem_filter this
        simpa using this
      exact joinSep_ne_nil nl2 a rest ha

theorem extractContent_eq_spec (doc : HNode) :
    extractContent doc = contentChoiceSpec doc := by
  unfold extractContent contentChoiceSpec
  rw [contentLoop_eq, firstYieldAux_eq, candidateList_eq]
  cases h : (((locatorFinds doc).filterMap id).filterMap candidateContent).head? with
  | none => simp
  | some t =>
    have htmem : t ∈ ((locatorFinds doc).filterMap id).filterMap candidateContent :=
      List.mem_of_mem_head? (by rw [h]; rfl)
    obtain ⟨n, _, hn⟩ := List.mem_filterMap.mp htmem
    have hne : t ≠ [] := candidateContent_ne_nil hn
    simp only [Option.getD_some]
    rw [if_neg (by simpa using hne)]

/-! ## Claim C9 -/

/-- C9: the body container is chosen in the fixed priority order id
candidates, class candidates, article, all-paragraphs fallback, skipping
each candidate that yields no non-empty fragments (the code loop equals the
spec-side chooser on every document); and on a document holding both an
`id="content"` container and an article with different paragraph text, the
`id="content"` text is returned. -/
theorem extractor_priority :
    (∀ doc : HNode, extractContent doc = contentChoiceSpec doc) ∧
      extractContent demoDoc = "Alpha.".toList ∧
      candidateContent demoArticle = some "Beta.".toList ∧
      "Alpha.".toList ≠ "Beta.".toList := by
  refine ⟨extractContent_eq_spec, ?_, ?_, by decide⟩
  · simp [extractContent, contentLoop, candidateList, idCandidates, classCandidates,
      demoDoc, demoContentDiv, demoArticle, findFirst, byId, byDivCls, byTag,
      candidateContent, candidateTexts, findAllTags, paraTags, elemChildren,
      getTextSep, textLeaves, joinSep, pyStrip, isSpc, nl2]
  · simp [candidateContent, candidateTexts, findAllTags, paraTags, elemChildren,
      getTextSep, textLeaves, joinSep, pyStrip, isSpc, nl2, demoArticle]

/-! ## Claim C10 -/

/-- C10: the claim is false on the code.  With the whoosh library absent,
`search_novels` does not fall back to the linear scan: the guard
`(available and writelock) or whoosh_index.exists_in(dir)` evaluates the
unbound name `whoosh_index` and raises `NameError` for every query,
whatever the naive search would have returned. -/
theorem searchNovels_whoosh_absent_raises :
    search_novels false false false (Except.ok []) ["n1"] = SearchOutcome.exn "NameError" ∧
      search_novels false false false (Except.ok []) ["n1"] ≠ SearchOutcome.results ["n1"] ∧
      ∀ (wl ix : Bool) (ws : Except String (List String)) (naive : List String),
        search_novels false wl ix ws naive = SearchOutcome.exn "NameError" :=
  ⟨rfl, by decide, fun _ _ _ _ => rfl⟩

theorem extract_all_or_nothing_witness :
    ((mkChapterRec 1 ⟨"T", "x"⟩)
        ∈ (runExtract ([(⟨"T", "x"⟩ : ChapterContent)].map some ++ none :: []) none).chapters) ∧
      (mkChapterRec 1 ⟨"T", "x"⟩).idx < [(⟨"T", "x"⟩ : ChapterContent)].length + 1 :=
  ⟨by decide,
    (extract_all_or_nothing [⟨"T", "x"⟩] [] none).2.2.2.2 (mkChapterRec 1 ⟨"T", "x"⟩)
      (by decide)⟩
